import Mathlib

/-!
Verification of the eclipse input pipeline (`src/main.rs`).

The development embeds the program shallowly:

* the `LibinputInterface::open_restricted` permission computation becomes a
  pure function from the `flags` argument to the `OpenOptions` read/write
  booleans it sets;
* the two normalized event shapes (`MouseEvent`, `KeyboardEvent` from the
  `stardust_xr_molecules` dependency) become structures whose fields follow
  the spec's data model, since the dependency's source is not part of this
  repository;
* the normalizer arms of the polling loop's `match` become a pure function
  on a tagged raw-event type; single-precision floats are kept abstract
  (a scalar type with a cast and a division, instantiated with `Rat` where
  every IEEE-754 binary32 operation involved is exact);
* the bounded tokio mpsc channel becomes a FIFO list with a
  drop-on-full `try_send`;
* `Eclipse::frame`'s per-class drain loop becomes a function from the
  receiver snapshot and the queued events to the delivered pairs and the
  events left in the queue;
* the polling loop with its one-shot stop channel becomes a recursion over
  per-iteration raw-event batches, guarded by a monotone `fired` predicate
  checked at the top of each iteration.
-/

/-! ### Device Access Shim (`Interface::open_restricted`) -/

/-- Linux `O_RDONLY` (note: it is zero). -/
def O_RDONLY : Nat := 0

/-- Linux `O_WRONLY`. -/
def O_WRONLY : Nat := 1

/-- Linux `O_RDWR`. -/
def O_RDWR : Nat := 2

/-- Linux `O_ACCMODE`, the mask of the access-mode bits of open flags. -/
def O_ACCMODE : Nat := 3

/-- The read/write permissions `open_restricted` passes to `OpenOptions`. -/
structure OpenPerms where
  read : Bool
  write : Bool
deriving DecidableEq, Repr

/-- The permission computation of `Interface::open_restricted`:
`.read((flags & O_RDONLY != 0) | (flags & O_RDWR != 0))`
`.write((flags & O_WRONLY != 0) | (flags & O_RDWR != 0))`. -/
def open_restricted (flags : Nat) : OpenPerms :=
  { read := (Nat.land flags O_RDONLY != 0) || (Nat.land flags O_RDWR != 0)
    write := (Nat.land flags O_WRONLY != 0) || (Nat.land flags O_RDWR != 0) }

/-- Spec-side reading of the claim: the requested access mode
(`flags & O_ACCMODE`) includes read when it is `O_RDONLY` or `O_RDWR`. -/
def modeIncludesRead (flags : Nat) : Bool :=
  Nat.land flags O_ACCMODE == O_RDONLY || Nat.land flags O_ACCMODE == O_RDWR

/-- Spec-side reading of the claim: the requested access mode
(`flags & O_ACCMODE`) includes write when it is `O_WRONLY` or `O_RDWR`. -/
def modeIncludesWrite (flags : Nat) : Bool :=
  Nat.land flags O_ACCMODE == O_WRONLY || Nat.land flags O_ACCMODE == O_RDWR

/-! ### Normalized event shapes

`MouseEvent` and `KeyboardEvent` come from the `stardust_xr_molecules`
dependency, whose source is outside this repository; their shapes are
taken from the spec's data model (three / five independently optional
fields), with field order matching the constructor calls in `main.rs`. -/

/-- A two-component vector (`glam::Vec2`); division is componentwise. -/
structure Vec2 (α : Type) where
  x : α
  y : α
deriving DecidableEq, Repr

/-- Modelled from the spec: a Pointer Event (`MouseEvent`) has an optional
relative motion vector, optional continuous scroll vector, optional
discrete scroll vector, optional buttons-released set and optional
buttons-pressed set, in the argument order of `MouseEvent::new`. -/
structure MouseEvent (F32 : Type) where
  delta : Option (Vec2 F32)
  scroll_continuous : Option (Vec2 F32)
  scroll_discrete : Option (Vec2 F32)
  buttons_up : Option (List Nat)
  buttons_down : Option (List Nat)
deriving DecidableEq, Repr

/-- Modelled from the spec: a Key Event (`KeyboardEvent`) has an optional
keymap reference, optional keys-released set and optional keys-pressed
set, in the argument order of `KeyboardEvent::new`. -/
structure KeyboardEvent (K : Type) where
  keymap : Option K
  keys_up : Option (List Nat)
  keys_down : Option (List Nat)
deriving DecidableEq, Repr

/-! ### Raw events and the Normalizer (the `match event` arms) -/

/-- `input::event::tablet_pad::KeyState`. -/
inductive KeyState where
  | pressed
  | released
deriving DecidableEq, Repr

/-- `input::event::tablet_pad::ButtonState`. -/
inductive ButtonState where
  | pressed
  | released
deriving DecidableEq, Repr

/-- The raw pointer events the loop matches on; numeric payloads are `f64`
values of an abstract scalar type `F64` (`scrollWheel` carries the v120
values). -/
inductive RawPointerEvent (F64 : Type) where
  | button (code : Nat) (state : ButtonState)
  | motion (dx dy : F64)
  | scrollContinuous (h v : F64)
  | scrollWheel (h v : F64)
deriving DecidableEq, Repr

/-- The raw events the loop matches on: a keyboard key event, a pointer
event, or any other kind (the `_ => ()` arm). -/
inductive RawEvent (F64 : Type) where
  | keyboardKey (code : Nat) (state : KeyState)
  | pointer (p : RawPointerEvent F64)
  | other
deriving DecidableEq, Repr

/-- Keyboard arm of the loop:
`KeyboardEvent::new(Some(&keymap), (state == Released).then(vec![key]), (state == Pressed).then(vec![key]))`. -/
def normalizeKey {K : Type} (km : K) (code : Nat) (state : KeyState) :
    KeyboardEvent K :=
  { keymap := some km
    keys_up := if state = .released then some [code] else none
    keys_down := if state = .pressed then some [code] else none }

/-- Pointer arms of the loop.  `toF32` is the `as f32` cast, `divF32` is
binary32 division and `c120` the literal `120.0`; `scrollWheel` divides
the cast vector componentwise by `120.0` as `glam` does. -/
def normalizePointer {F64 F32 : Type} (toF32 : F64 → F32)
    (divF32 : F32 → F32 → F32) (c120 : F32) :
    RawPointerEvent F64 → MouseEvent F32
  | .button code state =>
      { delta := none
        scroll_continuous := none
        scroll_discrete := none
        buttons_up := if state = .released then some [code] else none
        buttons_down := if state = .pressed then some [code] else none }
  | .motion dx dy =>
      { delta := some ⟨toF32 dx, toF32 dy⟩
        scroll_continuous := none
        scroll_discrete := none
        buttons_up := none
        buttons_down := none }
  | .scrollContinuous h v =>
      { delta := none
        scroll_continuous := some ⟨toF32 h, toF32 v⟩
        scroll_discrete := none
        buttons_up := none
        buttons_down := none }
  | .scrollWheel h v =>
      { delta := none
        scroll_continuous := none
        scroll_discrete := some ⟨divF32 (toF32 h) c120, divF32 (toF32 v) c120⟩
        buttons_up := none
        buttons_down := none }

/-- A normalized event: either shape, tagged by its class. -/
inductive NormEvent (K F32 : Type) where
  | key (e : KeyboardEvent K)
  | mouse (e : MouseEvent F32)
deriving DecidableEq, Repr

/-- One pass of the Normalizer over a raw event: keyboard key events and
pointer events each yield exactly one normalized event, anything else
yields none. -/
def normalizeRaw {K F64 F32 : Type} (km : K) (toF32 : F64 → F32)
    (divF32 : F32 → F32 → F32) (c120 : F32) :
    RawEvent F64 → Option (NormEvent K F32)
  | .keyboardKey code state => some (.key (normalizeKey km code state))
  | .pointer p => some (.mouse (normalizePointer toF32 divF32 c120 p))
  | .other => none

/-! ### Handoff Queues (bounded tokio mpsc channels, capacity 64)

A bounded channel is a FIFO list of at most `cap` queued events;
`try_send` appends when there is room and otherwise fails, and the loop
ignores the failure (`let _ = ..try_send(..)`), dropping the event. -/

/-- The capacity both channels are created with:
`tokio::sync::mpsc::channel(64)`. -/
def channelCapacity : Nat := 64

/-- `try_send` with the error discarded: append if below capacity,
otherwise drop the event. -/
def try_send {E : Type} (cap : Nat) (q : List E) (e : E) : List E :=
  if q.length < cap then q ++ [e] else q

/-- Push a list of events in order through `try_send`, also collecting the
events that were dropped (in order). -/
def pushAll {E : Type} (cap : Nat) (q : List E) : List E → List E × List E
  | [] => (q, [])
  | e :: es =>
    if q.length < cap then
      pushAll cap (q ++ [e]) es
    else
      let r := pushAll cap q es
      (r.1, e :: r.2)

/-! ### Frame Dispatcher (`Eclipse::frame`)

Each per-class loop of `Eclipse::frame` pops with `try_recv`, re-queries
the receiver snapshot, breaks when the snapshot is empty (the popped
event is discarded), and otherwise sends the event to the first receiver
(`receivers.values().nth(0)`).  `frameClass` returns the list of
(event, receiver) deliveries and the events still queued afterwards. -/

/-- One per-class drain loop of `Eclipse::frame`, with the receiver
snapshot constant over the frame. -/
def frameClass {E R : Type} (receivers : List R) :
    List E → List (E × R) × List E
  | [] => ([], [])
  | e :: rest =>
    match receivers.head? with
    | none => ([], rest)
    | some r =>
      let s := frameClass receivers rest
      ((e, r) :: s.1, s.2)

/-- The two Handoff Queues, one per event class. -/
structure Queues (K F32 : Type) where
  mouse : List (MouseEvent F32)
  keyboard : List (KeyboardEvent K)
deriving DecidableEq, Repr

/-- `Eclipse::frame`: drain the mouse queue to the first mouse receiver,
then the keyboard queue to the first keyboard receiver.  Returns the
deliveries of each class and the remaining queues. -/
def Eclipse.frame {K F32 R : Type} (mouseReceivers keyboardReceivers : List R)
    (qs : Queues K F32) :
    (List (MouseEvent F32 × R) × List (KeyboardEvent K × R)) × Queues K F32 :=
  let m := frameClass mouseReceivers qs.mouse
  let k := frameClass keyboardReceivers qs.keyboard
  ((m.1, k.1), { mouse := m.2, keyboard := k.2 })

/-! ### Polling Loop -/

/-- Processing of one raw event inside the loop body: normalize it and
`try_send` it into the queue of its class (dropping on overflow); the
`_ => ()` arm leaves the queues unchanged. -/
def processRaw {K F64 F32 : Type} (km : K) (toF32 : F64 → F32)
    (divF32 : F32 → F32 → F32) (c120 : F32) (qs : Queues K F32) :
    RawEvent F64 → Queues K F32
  | .keyboardKey code state =>
    { qs with
      keyboard := try_send channelCapacity qs.keyboard (normalizeKey km code state) }
  | .pointer p =>
    { qs with
      mouse := try_send channelCapacity qs.mouse (normalizePointer toF32 divF32 c120 p) }
  | .other => qs

/-- The polling loop observed for finitely many iterations: at the top of
iteration `i` it checks the one-shot stop signal (`fired i`) and returns
immediately when it is fired; otherwise it dispatches, drains the batch
of raw events of this iteration through `processRaw`, and continues. -/
def pollLoop {K F64 F32 : Type} (km : K) (toF32 : F64 → F32)
    (divF32 : F32 → F32 → F32) (c120 : F32) (fired : Nat → Bool)
    (i : Nat) (qs : Queues K F32) :
    List (List (RawEvent F64)) → Queues K F32
  | [] => qs
  | batch :: rest =>
    if fired i then qs
    else
      pollLoop km toF32 divF32 c120 fired (i + 1)
        (batch.foldl (processRaw km toF32 divF32 c120) qs) rest

/-! ## Theorems -/

/-- **C1.** The claim ("read permission iff the mode includes read, write
permission iff the mode includes write") fails on the code, and the code
is the slip: the test `flags & O_RDONLY != 0` is vacuous because
`O_RDONLY = 0`, so a read-only open (`flags = O_RDONLY`) requests
neither read nor write permission even though its mode includes read
(Rust's `OpenOptions` then rejects such an open with `EINVAL` instead of
opening the device read-only).  Evaluated at the failing input
`flags = O_RDONLY`. -/
theorem C1_open_restricted_read_only_bug :
    modeIncludesRead O_RDONLY = true ∧
      (open_restricted O_RDONLY).read = false ∧
      (open_restricted O_RDONLY).write = false := by
  decide

/-- With at most `cap` events queued, pushing `es` keeps the first
`cap - q.length` of them and drops the rest. -/
theorem pushAll_eq {E : Type} (cap : Nat) (q : List E) (es : List E)
    (h : q.length ≤ cap) :
    pushAll cap q es = ((q ++ es).take cap, (q ++ es).drop cap) := by
  induction es generalizing q with
  | nil =>
    simp [pushAll, List.take_of_length_le h, List.drop_of_length_le h]
  | cons e es ih =>
    by_cases hq : q.length < cap
    · have := ih (q ++ [e]) (by simpa using hq)
      simp only [pushAll, if_pos hq, this]
      simp
    · have hcap : q.length = cap := le_antisymm h (not_lt.mp hq)
      simp only [pushAll, if_neg hq, ih q h]
      subst hcap
      simp [List.take_left, List.drop_left]

/-- **C2, counterexample.** With zero registered receivers and two events
queued, the frame leaves an event in the queue, so it is false that all
events of the class are drained during that frame: `try_recv` pops one
event, the `else break` then ends the loop with the second event still
queued. -/
theorem C2_counterexample_event_left_queued :
    (frameClass ([] : List Unit) [(0 : Nat), 1]).2 ≠ [] := by
  decide

/-- **C2, amended.** When the Frame Dispatcher runs with zero registered
receivers for a class, it discards exactly the one event popped first
(if any), delivers nothing, stops draining that queue for the frame, and
returns normally (the drain function is total, so it neither blocks nor
raises an error); the remaining events stay queued. -/
theorem C2_zero_receivers_discards_only_head (E R : Type) (e : E)
    (rest : List E) :
    frameClass ([] : List R) (e :: rest) = ([], rest) ∧
      frameClass ([] : List R) ([] : List E) = ([], []) := by
  constructor <;> rfl

/-- **C3, counterexample.** The Key Event built for a raw key event does
not have "all other fields absent": its keymap field is set
(`KeyboardEvent::new(Some(&keymap), ..)`), shown here at the concrete
raw input (key code 30, state pressed). -/
theorem C3_counterexample_keymap_field_present :
    (normalizeKey () 30 KeyState.pressed).keymap ≠ none := by
  decide

/-- **C3, amended.** Every raw key-state change yields exactly one Key
Event; the key code is the singleton of the released set when the raw
state is released and of the pressed set when pressed, the complementary
set is absent, and the only other field — the keymap reference — is
present (it refers to the startup keymap, cf. C9) rather than absent.
Consequently a press followed by a release of the same code yields two
Key Events whose pressed/released sets are disjoint singletons of that
code. -/
theorem C3_key_event_singletons (K F64 F32 : Type) (km : K)
    (toF32 : F64 → F32) (divF32 : F32 → F32 → F32) (c120 : F32)
    (code : Nat) :
    (∀ state, normalizeRaw km toF32 divF32 c120 (.keyboardKey code state) =
        some (.key (normalizeKey km code state))) ∧
      normalizeKey km code .pressed =
        { keymap := some km, keys_up := none, keys_down := some [code] } ∧
      normalizeKey km code .released =
        { keymap := some km, keys_up := some [code], keys_down := none } := by
  refine ⟨fun state => rfl, rfl, rfl⟩

/-- **C4.** Pushing `cap + 1` events through the non-blocking `try_send`
into an empty queue of capacity `cap` keeps exactly the first `cap`
events, in their original order, and drops exactly one event, the last
one pushed; `try_send` and `pushAll` are total functions, so the
producer neither blocks nor panics. -/
theorem C4_overflow_drops_only_newest (E : Type) (cap : Nat) (es : List E)
    (h : es.length = cap + 1) :
    (pushAll cap [] es).1 = es.take cap ∧
      (pushAll cap [] es).2 = es.drop cap ∧
      (pushAll cap [] es).2.length = 1 := by
  have := pushAll_eq cap [] es (by simp)
  simp only [List.nil_append] at this
  refine ⟨by rw [this], by rw [this], ?_⟩
  rw [this]
  simp [h]

/-- Witness for C4 at capacity 2 and events `[10, 20, 30]`. -/
theorem C4_overflow_drops_only_newest_witness :
    ([10, 20, 30] : List Nat).length = 2 + 1 ∧
      ((pushAll 2 [] [10, 20, 30]).1 = [10, 20, 30].take 2 ∧
        (pushAll 2 [] ([10, 20, 30] : List Nat)).2 = [10, 20, 30].drop 2 ∧
        (pushAll 2 [] ([10, 20, 30] : List Nat)).2.length = 1) :=
  ⟨by decide, C4_overflow_drops_only_newest Nat 2 [10, 20, 30] (by decide)⟩

/-- **C5.** A raw relative-motion event with deltas `(dx, dy)` normalizes
to a Pointer Event whose motion field is exactly `(toF32 dx, toF32 dy)` —
the `as f32` cast applied to each delta and nothing else — and whose
continuous-scroll, discrete-scroll, released and pressed fields are all
absent; stated for every scalar model `(toF32, divF32, c120)`, hence in
particular for IEEE-754 binary32. -/
theorem C5_motion_is_cast_only (F64 F32 : Type) (toF32 : F64 → F32)
    (divF32 : F32 → F32 → F32) (c120 : F32) (dx dy : F64) :
    normalizePointer toF32 divF32 c120 (.motion dx dy) =
      { delta := some ⟨toF32 dx, toF32 dy⟩
        scroll_continuous := none
        scroll_discrete := none
        buttons_up := none
        buttons_down := none } := by
  rfl

/-- **C6.** A raw wheel event with v120 values `(h, v)` normalizes to a
Pointer Event whose discrete-scroll field is exactly
`(divF32 (toF32 h) c120, divF32 (toF32 v) c120)` — each value cast to
single precision and divided by the literal `120.0`, in single
precision — with all other fields absent (first conjunct, for every
scalar model).  At the input `(120, -240)` every binary32 operation
involved is exact (the operands and results are integers of magnitude
below `2 ^ 24`), so exact rational arithmetic coincides with binary32
there and the result is `(1.0, -2.0)` (second conjunct). -/
theorem C6_wheel_divides_by_120 :
    (∀ (F64 F32 : Type) (toF32 : F64 → F32) (divF32 : F32 → F32 → F32)
        (c120 : F32) (h v : F64),
        normalizePointer toF32 divF32 c120 (.scrollWheel h v) =
          { delta := none
            scroll_continuous := none
            scroll_discrete := some ⟨divF32 (toF32 h) c120, divF32 (toF32 v) c120⟩
            buttons_up := none
            buttons_down := none }) ∧
      normalizePointer (id : Rat → Rat) (· / ·) 120 (.scrollWheel 120 (-240)) =
        { delta := none
          scroll_continuous := none
          scroll_discrete := some ⟨1, -2⟩
          buttons_up := none
          buttons_down := none } := by
  refine ⟨fun F64 F32 toF32 divF32 c120 h v => rfl, ?_⟩
  simp only [normalizePointer, MouseEvent.mk.injEq, Vec2.mk.injEq, id]
  norm_num

/-- **C7.** When exactly one receiver is registered for a class, a frame
drains every queued event of that class and delivers each to that
receiver exactly once, in the original enqueue (FIFO) order: the
deliveries are the queue mapped in order onto that receiver and the
queue is left empty. -/
theorem C7_single_receiver_in_order (E R : Type) (r : R) (q : List E) :
    frameClass [r] q = (q.map (fun e => (e, r)), []) := by
  induction q with
  | nil => rfl
  | cons e rest ih => simp [frameClass, ih]

/-- Once every iteration from `k` on observes the signal as fired, the
loop's run over any batch list equals its run over the batches truncated
before `k`: nothing from iteration `k` onwards is processed. -/
theorem pollLoop_fired_truncates {K F64 F32 : Type} (km : K)
    (toF32 : F64 → F32) (divF32 : F32 → F32 → F32) (c120 : F32)
    (fired : Nat → Bool) (k : Nat) (hf : ∀ j, k ≤ j → fired j = true)
    (batches : List (List (RawEvent F64))) :
    ∀ (i : Nat) (qs : Queues K F32),
      pollLoop km toF32 divF32 c120 fired i qs batches =
        pollLoop km toF32 divF32 c120 fired i qs (batches.take (k - i)) := by
  induction batches with
  | nil => intro i qs; rw [List.take_nil]
  | cons b bs ih =>
    intro i qs
    by_cases hi : fired i = true
    · rcases Nat.eq_zero_or_pos (k - i) with h0 | hpos
      · rw [h0]
        simp [pollLoop, hi]
      · obtain ⟨m, hm⟩ : ∃ m, k - i = m + 1 := ⟨k - i - 1, by omega⟩
        rw [hm]
        simp [pollLoop, hi]
    · have hik : i < k := by
        by_contra hle
        exact hi (hf i (by omega))
      have hsub : k - i = (k - (i + 1)) + 1 := by omega
      rw [hsub, List.take_succ_cons]
      simp only [pollLoop, hi, if_false, Bool.false_eq_true]
      exact ih (i + 1) _

/-- **C8.** The stop signal is checked at the top of every iteration:
if it is observed fired at iteration `i`, the loop returns at once with
its queues untouched — no dispatch, normalization or enqueue happens in
that or any later iteration (first conjunct); consequently, for a
one-shot signal (fired from some iteration `k` on, monotonically), the
whole run processes only the batches of iterations before `k` (second
conjunct). -/
theorem C8_cancellation_stops_processing (K F64 F32 : Type) (km : K)
    (toF32 : F64 → F32) (divF32 : F32 → F32 → F32) (c120 : F32)
    (fired : Nat → Bool)
    (mono : ∀ i j, i ≤ j → fired i = true → fired j = true) (k : Nat)
    (hk : fired k = true) :
    (∀ (i : Nat) (qs : Queues K F32) (batch : List (RawEvent F64))
        (rest : List (List (RawEvent F64))), fired i = true →
        pollLoop km toF32 divF32 c120 fired i qs (batch :: rest) = qs) ∧
      ∀ (qs : Queues K F32) (batches : List (List (RawEvent F64))),
        pollLoop km toF32 divF32 c120 fired 0 qs batches =
          pollLoop km toF32 divF32 c120 fired 0 qs (batches.take k) := by
  constructor
  · intro i qs batch rest hi
    simp [pollLoop, hi]
  · intro qs batches
    have := pollLoop_fired_truncates km toF32 divF32 c120 fired k
      (fun j hj => mono k j hj hk) batches 0 qs
    simpa using this

/-- Witness for C8: a signal fired from iteration 1 on; the loop started
on two batches stops after the first. -/
theorem C8_cancellation_stops_processing_witness :
    ((fun i => Nat.ble 1 i) 1 = true) ∧
      pollLoop () (id : Rat → Rat) (· / ·) 120 (fun i => Nat.ble 1 i) 0
          ⟨[], []⟩ [[RawEvent.other], [RawEvent.other]] =
        pollLoop () (id : Rat → Rat) (· / ·) 120 (fun i => Nat.ble 1 i) 0
          ⟨[], []⟩ ([[RawEvent.other], [RawEvent.other]].take 1) :=
  ⟨rfl,
    (C8_cancellation_stops_processing Unit Rat Rat () id (· / ·) 120
          (fun i => Nat.ble 1 i)
          (fun i j hij h => by
            simp only [Nat.ble_eq] at h ⊢
            omega)
          1 rfl).2
      ⟨[], []⟩ [[RawEvent.other], [RawEvent.other]]⟩

/-- Every keyboard-queue event `try_send` can leave in the queue was
already there or is the event just pushed. -/
theorem mem_try_send {E : Type} (cap : Nat) (q : List E) (x e : E)
    (h : e ∈ try_send cap q x) : e ∈ q ∨ e = x := by
  unfold try_send at h
  by_cases hq : q.length < cap
  · rw [if_pos hq] at h
    simpa using h
  · rw [if_neg hq] at h
    exact Or.inl h

/-- `processRaw` preserves "every queued Key Event references `km`":
the only Key Event it can push is `normalizeKey km _ _`, whose keymap
field is `some km` by construction. -/
theorem processRaw_keymap_invariant {K F64 F32 : Type} (km : K)
    (toF32 : F64 → F32) (divF32 : F32 → F32 → F32) (c120 : F32)
    (qs : Queues K F32) (raw : RawEvent F64)
    (h : ∀ e ∈ qs.keyboard, e.keymap = some km) :
    ∀ e ∈ (processRaw km toF32 divF32 c120 qs raw).keyboard,
      e.keymap = some km := by
  intro e he
  cases raw with
  | keyboardKey code state =>
    rcases mem_try_send _ _ _ _ he with hold | hnew
    · exact h e hold
    · rw [hnew]
      rfl
  | pointer p => exact h e he
  | other => exact h e he

/-- A batch fold of `processRaw` preserves the keymap invariant. -/
theorem foldl_processRaw_keymap_invariant {K F64 F32 : Type} (km : K)
    (toF32 : F64 → F32) (divF32 : F32 → F32 → F32) (c120 : F32)
    (batch : List (RawEvent F64)) :
    ∀ (qs : Queues K F32), (∀ e ∈ qs.keyboard, e.keymap = some km) →
      ∀ e ∈ (batch.foldl (processRaw km toF32 divF32 c120) qs).keyboard,
        e.keymap = some km := by
  induction batch with
  | nil => intro qs h; exact h
  | cons raw rest ih =>
    intro qs h
    exact ih _ (processRaw_keymap_invariant km toF32 divF32 c120 qs raw h)

/-- **C9.** Every Key Event found in the keyboard Handoff Queue after any
run of the polling loop (started with empty queues, over any batches and
any stop signal) carries `keymap = some km`, where `km` is the one
keymap built at loop startup — the reference is never `none` and every
Key Event shares the same startup keymap value (the embedding is pure,
so the keymap is never mutated after construction). -/
theorem C9_key_events_reference_startup_keymap (K F64 F32 : Type) (km : K)
    (toF32 : F64 → F32) (divF32 : F32 → F32 → F32) (c120 : F32)
    (fired : Nat → Bool) (batches : List (List (RawEvent F64))) :
    ∀ e ∈ (pollLoop km toF32 divF32 c120 fired 0 ⟨[], []⟩ batches).keyboard,
      e.keymap = some km := by
  have main : ∀ (batches : List (List (RawEvent F64))) (i : Nat)
      (qs : Queues K F32), (∀ e ∈ qs.keyboard, e.keymap = some km) →
      ∀ e ∈ (pollLoop km toF32 divF32 c120 fired i qs batches).keyboard,
        e.keymap = some km := by
    intro batches
    induction batches with
    | nil => intro i qs h; exact h
    | cons b bs ih =>
      intro i qs h
      by_cases hi : fired i = true
      · simpa [pollLoop, hi] using h
      · simp only [pollLoop, hi, if_false, Bool.false_eq_true]
        exact ih (i + 1) _
          (foldl_processRaw_keymap_invariant km toF32 divF32 c120 b qs h)
  exact main batches 0 ⟨[], []⟩ (by intro e he; cases he)

/-- Witness for C9: one batch carrying a press of key 30; the single
queued Key Event references the startup keymap. -/
theorem C9_key_events_reference_startup_keymap_witness :
    normalizeKey () 30 KeyState.pressed ∈
        (pollLoop () (id : Rat → Rat) (· / ·) 120 (fun _ => false) 0
            ⟨[], []⟩ [[RawEvent.keyboardKey 30 KeyState.pressed]]).keyboard ∧
      (normalizeKey () 30 KeyState.pressed).keymap = some () :=
  ⟨by decide,
    C9_key_events_reference_startup_keymap Unit Rat Rat () id (· / ·) 120
      (fun _ => false) [[RawEvent.keyboardKey 30 KeyState.pressed]]
      (normalizeKey () 30 KeyState.pressed) (by decide)⟩

/-- **C10.** In a frame with zero registered receivers for a class, the
dispatcher removes at most one event from that class's queue (the head,
which it discards undelivered) and every remaining event stays queued,
available to a later frame: the leftover queue is exactly the original
queue minus its head. -/
theorem C10_zero_receivers_removes_at_most_one (E R : Type) (q : List E) :
    (frameClass ([] : List R) q).2 = q.drop 1 ∧
      q.length ≤ (frameClass ([] : List R) q).2.length + 1 ∧
      (frameClass ([] : List R) q).1 = [] := by
  cases q with
  | nil => exact ⟨rfl, by simp [frameClass], rfl⟩
  | cons e rest => exact ⟨rfl, by simp [frameClass], rfl⟩
